import Mathlib

/-!
Verification development for `src/api/analyze-policy.js` (sureway repository).

The handler is shallowly embedded over `List Char` strings and a `Json` value
type. All definitions are translated from the JavaScript source:

* `extOf`           — `fileName.split('.').pop().toLowerCase()`
* `stripFence`, `cleanText` — the two `replace(/```json\n?/g,'')`,
  `replace(/```\n?/g,'')` passes followed by `.trim()`
* `regexMatchBrace` — the greedy leftmost match of the regex matching a
  left brace, any characters, then a right brace (the JSON-span extraction)
* `JSONparse`       — strict JSON parsing per ECMA-404 / `JSON.parse`
  (numbers are kept as exact decimals `mantissa * 10 ^ exponent` instead of
  IEEE doubles; all numerals in this file are small integers so no rounding
  is observable)
* `fallbackResult`, `normalizeReply` — the `try/catch` normalizer
* `buildUserContent`, `mkModelRequest`, `handler` — payload shaping and the
  whole request pipeline; the external model API is a function parameter,
  and the outbound calls made are recorded in `HandlerResult.calls`.
-/

/-- Strings are modelled as lists of characters (JS strings are sequences of
UTF-16 code units; all inputs considered here are in the basic plane, where
one code unit is one character). -/
abbrev Str := List Char

/-- Coerce a Lean string literal to the `List Char` representation. -/
def cs (s : String) : Str := s.data

/-- Left brace character, written via its code point. -/
def lbraceC : Char := Char.ofNat 123

/-- Right brace character, written via its code point. -/
def rbraceC : Char := Char.ofNat 125

/-- Whitespace stripped by `String.prototype.trim` (ECMAScript WhiteSpace and
LineTerminator code points). -/
def isTrimWs (c : Char) : Bool :=
  c = ' ' || c = Char.ofNat 9 || c = Char.ofNat 10 || c = Char.ofNat 11 ||
  c = Char.ofNat 12 || c = Char.ofNat 13 || c = Char.ofNat 160 ||
  c = Char.ofNat 0x1680 || (Char.ofNat 0x2000 ≤ c && c ≤ Char.ofNat 0x200A) ||
  c = Char.ofNat 0x2028 || c = Char.ofNat 0x2029 || c = Char.ofNat 0x202F ||
  c = Char.ofNat 0x205F || c = Char.ofNat 0x3000 || c = Char.ofNat 0xFEFF

/-- JS `String.prototype.trim`. -/
def jsTrim (s : Str) : Str :=
  ((s.dropWhile isTrimWs).reverse.dropWhile isTrimWs).reverse

/-- One global-`replace`-with-empty pass for the pattern `tok` followed by an
optional newline (the shapes of the two fence-stripping regexes in the
source).  Scans left to right; at a match the match is dropped and scanning
resumes after it, exactly as a JS global replace does.  Structural recursion
on a fuel argument; every step on a nonempty input consumes at least one
input character, so fuel `s.length` (as passed by `stripFence`) is never
exhausted for the nonempty patterns the source uses. -/
def stripFenceAux : Nat → Str → Str → Str
  | 0, _, s => s
  | f + 1, tok, s =>
    match s with
    | [] => []
    | c :: rest =>
      if (tok ++ [Char.ofNat 10]).isPrefixOf s then
        stripFenceAux f tok (s.drop (tok.length + 1))
      else if tok.isPrefixOf s then
        stripFenceAux f tok (s.drop tok.length)
      else
        c :: stripFenceAux f tok rest

/-- Global replace of pattern `tok` (with optional trailing newline) by the
empty string. -/
def stripFence (tok : Str) (s : Str) : Str := stripFenceAux s.length tok s

/-- Fence stripping as in the source: first remove every occurrence of the
three-backtick-json marker with optional trailing newline, then every bare
three-backtick marker with optional trailing newline, then trim. -/
def cleanText (raw : Str) : Str :=
  jsTrim (stripFence (cs "```") (stripFence (cs "```json") raw))

/-- JS `split('.')` on a character list. -/
def splitOnDot : Str → List Str
  | [] => [[]]
  | c :: rest =>
    if c = '.' then [] :: splitOnDot rest
    else
      match splitOnDot rest with
      | [] => [[c]]
      | h :: t => (c :: h) :: t

/-- The source's `fileName.split('.').pop().toLowerCase()` (`toLowerCase`
modelled on ASCII letters, which covers every extension the handler
distinguishes). -/
def extOf (fn : Str) : Str :=
  ((splitOnDot fn).getLastD []).map Char.toLower

/-- JSON values. Object member lists keep every parsed member in order;
`Json.getObj?` below looks up the last occurrence of a key, matching the
last-write-wins behaviour of JavaScript object construction. Numbers are the
exact decimal `mantissa * 10 ^ exponent`. -/
inductive Json where
  | null : Json
  | bool (b : Bool) : Json
  | num (mantissa : Int) (exponent : Int) : Json
  | str (s : Str) : Json
  | arr (elems : List Json) : Json
  | obj (members : List (Str × Json)) : Json

/-- Last-occurrence lookup in an object member list. -/
def lookupLast (k : Str) : List (Str × Json) → Option Json
  | [] => none
  | (k', v) :: rest =>
    match lookupLast k rest with
    | some r => some r
    | none => if k' = k then some v else none

/-- JS property access on a parsed object. -/
def Json.getObj? (j : Json) (k : Str) : Option Json :=
  match j with
  | .obj ms => lookupLast k ms
  | _ => none

/-- Two-level property access. -/
def getObj2 (j : Json) (k1 k2 : Str) : Option Json :=
  (j.getObj? k1).bind (fun x => x.getObj? k2)

/-- JSON insignificant whitespace. -/
def isJsonWs (c : Char) : Bool :=
  c = ' ' || c = Char.ofNat 9 || c = Char.ofNat 10 || c = Char.ofNat 13

/-- Drop leading JSON whitespace. -/
def skipWs (s : Str) : Str := s.dropWhile isJsonWs

/-- Decimal digit test. -/
def isDigitCh (c : Char) : Bool := '0' ≤ c && c ≤ '9'

/-- Numeric value of a decimal digit character. -/
def digitVal (c : Char) : Nat := c.toNat - 48

/-- Value of a digit string. -/
def natOfDigits (ds : Str) : Nat := ds.foldl (fun a c => a * 10 + digitVal c) 0

/-- Value of a hexadecimal digit character. -/
def hexVal (c : Char) : Option Nat :=
  if isDigitCh c then some (digitVal c)
  else if 'a' ≤ c && c ≤ 'f' then some (c.toNat - 87)
  else if 'A' ≤ c && c ≤ 'F' then some (c.toNat - 55)
  else none

/-- Parse a JSON string body (after the opening quote), returning the decoded
characters and the input remaining after the closing quote. -/
def parseStringBody : Nat → Str → Option (Str × Str)
  | 0, _ => none
  | f + 1, s =>
    match s with
    | [] => none
    | c :: rest =>
      if c = '"' then some ([], rest)
      else if c = '\\' then
        match rest with
        | [] => none
        | e :: rest2 =>
          let cont := fun (ch : Char) (r : Str) =>
            (parseStringBody f r).map (fun p => (ch :: p.1, p.2))
          if e = '"' then cont '"' rest2
          else if e = '\\' then cont '\\' rest2
          else if e = '/' then cont '/' rest2
          else if e = 'b' then cont (Char.ofNat 8) rest2
          else if e = 'f' then cont (Char.ofNat 12) rest2
          else if e = 'n' then cont (Char.ofNat 10) rest2
          else if e = 'r' then cont (Char.ofNat 13) rest2
          else if e = 't' then cont (Char.ofNat 9) rest2
          else if e = 'u' then
            match rest2 with
            | h1 :: h2 :: h3 :: h4 :: rest3 =>
              match hexVal h1, hexVal h2, hexVal h3, hexVal h4 with
              | some a, some b, some c2, some d =>
                cont (Char.ofNat (((a * 16 + b) * 16 + c2) * 16 + d)) rest3
              | _, _, _, _ => none
            | _ => none
          else none
      else if c.toNat < 32 then none
      else (parseStringBody f rest).map (fun p => (c :: p.1, p.2))

/-- Parse the optional fraction part of a JSON number; `none` on a dot with no
digits, otherwise the fraction digits and the rest. -/
def parseFrac (s : Str) : Option (Str × Str) :=
  match s with
  | [] => some ([], s)
  | d :: r =>
    if d = '.' then
      let ds := r.takeWhile isDigitCh
      if ds.isEmpty then none else some (ds, r.dropWhile isDigitCh)
    else some ([], s)

/-- Parse the optional exponent part of a JSON number, returning its signed
value. -/
def parseExp (s : Str) : Option (Int × Str) :=
  match s with
  | [] => some (0, s)
  | e :: r =>
    if e = 'e' ∨ e = 'E' then
      let (esign, r2) : Int × Str :=
        match r with
        | c :: r3 => if c = '+' then (1, r3) else if c = '-' then (-1, r3) else (1, r)
        | [] => (1, r)
      let ds := r2.takeWhile isDigitCh
      if ds.isEmpty then none
      else some (esign * (natOfDigits ds : Int), r2.dropWhile isDigitCh)
    else some (0, s)

/-- Parse a JSON number token (ECMA-404 grammar: optional minus, `0` or a
nonzero-led digit run, optional fraction, optional exponent). -/
def parseNumberTok (s : Str) : Option (Json × Str) :=
  let (neg, s1) : Bool × Str :=
    match s with
    | c :: r => if c = '-' then (true, r) else (false, s)
    | [] => (false, s)
  match s1 with
  | [] => none
  | c :: r =>
    if isDigitCh c then
      let (intDigits, s2) : Str × Str :=
        if c = '0' then (['0'], r)
        else (s1.takeWhile isDigitCh, s1.dropWhile isDigitCh)
      match parseFrac s2 with
      | none => none
      | some (fracDigits, s3) =>
        match parseExp s3 with
        | none => none
        | some (expVal, s4) =>
          let mag : Int := (natOfDigits (intDigits ++ fracDigits) : Int)
          let m : Int := if neg then -mag else mag
          some (.num m (expVal - (fracDigits.length : Int)), s4)
    else none

mutual

/-- Parse one JSON value (leading whitespace allowed), fuel-bounded. The fuel
passed in by `JSONparse` always exceeds what any input can consume, so the
fuel-exhaustion branch is unreachable in practice. -/
def parseValue : Nat → Str → Option (Json × Str)
  | 0, _ => none
  | f + 1, s0 =>
    let s := skipWs s0
    if (cs "true").isPrefixOf s then some (.bool true, s.drop 4)
    else if (cs "false").isPrefixOf s then some (.bool false, s.drop 5)
    else if (cs "null").isPrefixOf s then some (.null, s.drop 4)
    else
      match s with
      | [] => none
      | c :: rest =>
        if c = '"' then
          (parseStringBody (f + 1) rest).map (fun p => (.str p.1, p.2))
        else if c = lbraceC then
          match skipWs rest with
          | [] => none
          | c2 :: r2 =>
            if c2 = rbraceC then some (.obj [], r2)
            else (parseMembers f (c2 :: r2)).map (fun p => (.obj p.1, p.2))
        else if c = '[' then
          match skipWs rest with
          | [] => none
          | c2 :: r2 =>
            if c2 = ']' then some (.arr [], r2)
            else (parseElems f (c2 :: r2)).map (fun p => (.arr p.1, p.2))
        else parseNumberTok s

/-- Parse a nonempty object member sequence up to and including the closing
brace. -/
def parseMembers : Nat → Str → Option (List (Str × Json) × Str)
  | 0, _ => none
  | f + 1, s =>
    match skipWs s with
    | [] => none
    | c :: rest =>
      if c = '"' then
        match parseStringBody (f + 1) rest with
        | none => none
        | some (key, r1) =>
          match skipWs r1 with
          | [] => none
          | c2 :: r2 =>
            if c2 = ':' then
              match parseValue f r2 with
              | none => none
              | some (v, r3) =>
                match skipWs r3 with
                | [] => none
                | c3 :: r4 =>
                  if c3 = ',' then
                    (parseMembers f r4).map (fun p => ((key, v) :: p.1, p.2))
                  else if c3 = rbraceC then some ([(key, v)], r4)
                  else none
            else none
      else none

/-- Parse a nonempty array element sequence up to and including the closing
bracket. -/
def parseElems : Nat → Str → Option (List Json × Str)
  | 0, _ => none
  | f + 1, s =>
    match parseValue f s with
    | none => none
    | some (v, r1) =>
      match skipWs r1 with
      | [] => none
      | c :: r2 =>
        if c = ',' then (parseElems f r2).map (fun p => (v :: p.1, p.2))
        else if c = ']' then some (v :: [], r2)
        else none

end

/-- JS `JSON.parse`: parse one value and require only whitespace to remain.
Returns `none` exactly when `JSON.parse` throws. -/
def JSONparse (s : Str) : Option Json :=
  match parseValue (2 * s.length + 2) s with
  | some (v, rest) => if skipWs rest = [] then some v else none
  | none => none

/-- Greedy prefix of `l` ending at the last right brace of `l`, if any: the
tail of a JS match of the brace-span regex after its opening brace (the
greedy any-character run backtracks to the final right brace). -/
def takeToLastRBrace : Str → Option Str
  | [] => none
  | c :: rest =>
    match takeToLastRBrace rest with
    | some t => some (c :: t)
    | none => if c = rbraceC then some [rbraceC] else none

/-- JS `cleanedResult.match` with the brace-span regex: the leftmost
position holding a left brace with some right brace after it starts the
match, and the greedy middle extends it to the last right brace of the
string. -/
def regexMatchBrace : Str → Option Str
  | [] => none
  | c :: rest =>
    if c = lbraceC then
      match takeToLastRBrace rest with
      | some t => some (lbraceC :: t)
      | none => regexMatchBrace rest
    else regexMatchBrace rest

/-- Index of the first occurrence of `c`. -/
def firstIdxOf (c : Char) : Str → Option Nat
  | [] => none
  | a :: rest => if a = c then some 0 else (firstIdxOf c rest).map (· + 1)

/-- Index of the last occurrence of `c`. -/
def lastIdxOf (c : Char) : Str → Option Nat
  | [] => none
  | a :: rest =>
    match lastIdxOf c rest with
    | some n => some (n + 1)
    | none => if a = c then some 0 else none

/-- The extract-then-parse stage of the normalizer: clean the raw reply,
match the brace-span regex, and run `JSON.parse` on the matched span.
`none` exactly when the source's `try` block throws. -/
def extractParse (raw : Str) : Option Json :=
  (regexMatchBrace (cleanText raw)).bind JSONparse

/-- The fallback `analysisData` object built in the source's `catch` block. -/
def fallbackResult (raw : Str) : Json :=
  .obj [
    (cs "executive_summary", .obj [
      (cs "current_premium", .str (cs "Analysis completed")),
      (cs "overall_assessment", .str (raw.take 300)),
      (cs "savings_potential", .str (cs "15-25%")),
      (cs "confidence_score", .num 85 0)]),
    (cs "savings_opportunities", .obj [
      (cs "immediate_actions", .arr [
        .str (cs "Review classification codes for accuracy"),
        .str (cs "Verify payroll calculations"),
        .str (cs "Check experience modification factor")]),
      (cs "estimated_savings_range", .str (cs "15-25%"))]),
    (cs "full_analysis_text", .str raw)]

/-- The result normalizer: the parsed extracted span when the `try` block
succeeds, the synthesized fallback otherwise. Total by construction, so the
normalizer can never raise. -/
def normalizeReply (raw : Str) : Json :=
  match extractParse raw with
  | some j => j
  | none => fallbackResult raw

/-- The fixed system prompt string of the source. -/
def systemPrompt : Str :=
  cs "You are an expert insurance analyst specializing in Workers\x27 Compensation policies. Analyze insurance policies and provide actionable insights to help businesses save money and optimize coverage."

/-- Text of the user prompt before the interpolated file name. -/
def userPromptPre : Str :=
  cs "I have uploaded a Workers\x27 Compensation insurance policy document named \""

/-- Text of the user prompt after the interpolated file name. -/
def userPromptPost : Str :=
  cs "\". Please analyze this policy and provide:\n\n1. **Executive Summary**:\n   - Current annual premium (if visible in the document)\n   - Overall policy assessment\n   - Estimated savings potential (as a percentage range, e.g., \"15-25%\")\n   - Confidence score (0-100) for your analysis\n\n2. **Savings Opportunities**:\n   - List 3-5 specific immediate actions that could reduce premiums\n   - Estimated savings range\n\n3. **Coverage Analysis**:\n   - Key coverage details found in the policy\n   - Any gaps or redundancies identified\n   - Compliance with NY state requirements\n\n4. **Risk Assessment**:\n   - Industry classification accuracy\n   - Experience modification factors (if mentioned)\n   - Safety program recommendations\n\n5. **Recommendations**:\n   - Priority actions to take immediately\n   - Timeline for implementation\n\nPlease respond with a JSON object in this exact format:\n\x7b\n  \"executive_summary\": \x7b\n    \"current_premium\": \"string or null\",\n    \"overall_assessment\": \"string\",\n    \"savings_potential\": \"string (e.g., \x2715-25%\x27)\",\n    \"confidence_score\": number\n  \x7d,\n  \"savings_opportunities\": \x7b\n    \"immediate_actions\": [\"action1\", \"action2\", \"action3\"],\n    \"estimated_savings_range\": \"string\"\n  \x7d,\n  \"coverage_analysis\": \x7b\n    \"key_details\": [\"detail1\", \"detail2\"],\n    \"gaps\": [\"gap1\", \"gap2\"],\n    \"compliance_status\": \"string\"\n  \x7d,\n  \"risk_assessment\": \x7b\n    \"classification_accuracy\": \"string\",\n    \"recommendations\": [\"rec1\", \"rec2\"]\n  \x7d,\n  \"priority_recommendations\": [\"rec1\", \"rec2\", \"rec3\"]\n\x7d"

/-- The templated user prompt. -/
def mkUserPrompt (fn : Str) : Str := userPromptPre ++ fn ++ userPromptPost

/-- The note appended to the prompt in the PDF branch. -/
def pdfNote : Str :=
  cs "\n\nNote: This is a PDF document. Please analyze based on typical Workers\x27 Compensation policy structures."

/-- The image extensions recognized by the handler. -/
def imageExtsList : List Str := [cs "jpg", cs "jpeg", cs "png"]

/-- The `imageType` selection of the source: `image/png` for `png`, otherwise
`image/jpeg` (only ever applied to the three image extensions). -/
def imageTypeOf (ext : Str) : Str :=
  if ext = cs "png" then cs "image/png" else cs "image/jpeg"

/-- Standard base64 alphabet. -/
def b64Alphabet : Str :=
  cs "ABCDEFGHIJKLMNOPQRSTUVWXYZabcdefghijklmnopqrstuvwxyz0123456789+/"

/-- Character for a 6-bit group. -/
def b64Char (n : Nat) : Char := b64Alphabet.getD n 'A'

/-- Node `Buffer.toString('base64')` on a byte list (bytes are `Nat`s below
256, as produced by reading a file). -/
def base64Encode : List Nat → Str
  | [] => []
  | [b0] => [b64Char (b0 / 4), b64Char (b0 % 4 * 16), '=', '=']
  | [b0, b1] => [b64Char (b0 / 4), b64Char (b0 % 4 * 16 + b1 / 16), b64Char (b1 % 16 * 4), '=']
  | b0 :: b1 :: b2 :: rest =>
    b64Char (b0 / 4) :: b64Char (b0 % 4 * 16 + b1 / 16) ::
    b64Char (b1 % 16 * 4 + b2 / 64) :: b64Char (b2 % 64) :: base64Encode rest

/-- A part of a multi-part user message. -/
inductive ContentPart where
  | text (t : Str) : ContentPart
  | imageUrl (url : Str) (detail : Str) : ContentPart

/-- The user message content: a plain string (the non-vision request) or a
typed part list (the vision request). -/
inductive UserContent where
  | plain (t : Str) : UserContent
  | parts (ps : List ContentPart) : UserContent

/-- Content-type-dependent payload shaping, lines 128-216 of the source:
image extensions get the two-part text+image content; `pdf` gets a one-part
text content carrying `pdfNote`; every other extension gets the plain string
prompt of the non-vision request. -/
def buildUserContent (fn : Str) (bytes : List Nat) : UserContent :=
  let ext := extOf fn
  if ext = cs "pdf" ∨ ext ∈ imageExtsList then
    let base64Content := base64Encode bytes
    if ext ∈ imageExtsList then
      .parts [.text (mkUserPrompt fn),
              .imageUrl (cs "data:" ++ imageTypeOf ext ++ cs ";base64," ++ base64Content)
                        (cs "high")]
    else
      .parts [.text (mkUserPrompt fn ++ pdfNote)]
  else
    .plain (mkUserPrompt fn)

/-- The outbound chat-completion request body (temperature 0.7 is recorded in
tenths to stay in exact arithmetic). -/
structure ModelRequest where
  model : Str
  systemContent : Str
  userContent : UserContent
  maxTokens : Nat
  temperatureTenths : Nat

/-- Build the outbound request for a given upload. -/
def mkModelRequest (fn : Str) (bytes : List Nat) : ModelRequest :=
  { model := cs "gpt-4o"
    systemContent := systemPrompt
    userContent := buildUserContent fn bytes
    maxTokens := 2000
    temperatureTenths := 7 }

/-- Outcome of the outbound API call: the first choice's message content on
HTTP success, or the non-success status code. -/
inductive ApiResult where
  | ok (content : Str) : ApiResult
  | err (status : Nat) : ApiResult

/-- The uploaded file as the handler sees it after `readFileSync`: original
file name and raw bytes. -/
structure UploadedFile where
  originalFilename : Str
  content : List Nat

/-- The `files` map produced by the multipart parse (only the fixed field
name `policy_file` is ever read). -/
structure ParsedForm where
  policy_file : Option UploadedFile

/-- The inbound request: HTTP method, the `x-api-key` header (absent allowed)
and the outcome of the formidable parse (`error e` models a rejected parse
whose message is `e`). -/
structure Request where
  method : Str
  xApiKey : Option Str
  form : Except Str ParsedForm

/-- Process-wide configuration. `API_KEY` and `OPENAI_API_KEY` are absent or
a string (the empty string is falsy in JS and treated like absence where the
source tests truthiness). -/
structure Env where
  apiKey : Option Str
  openaiApiKey : Option Str
  nodeEnv : Option Str

/-- The response delivered by the handler, together with the list of
outbound model API calls performed during the run. -/
structure HandlerResult where
  status : Nat
  body : Json
  calls : List ModelRequest

/-- The effective server key: `process.env.API_KEY || '...'` (JS `||` falls
through on the falsy empty string). -/
def serverKeyOf (env : Env) : Str :=
  match env.apiKey with
  | some s => if s = [] then cs "suRew@y_Insur@nce_2024_S3cur3_K3y" else s
  | none => cs "suRew@y_Insur@nce_2024_S3cur3_K3y"

/-- A `{success:false, error:msg}` error envelope. (The development-only
stack-trace `details` field of the 500 envelope is runtime metadata and is
not modelled.) -/
def errBody (msg : Str) : Json :=
  .obj [(cs "success", .bool false), (cs "error", .str msg)]

/-- The 200 success envelope. `nowMs`, `nowIso` and `rand` stand for the
run's `Date.now()`, `new Date().toISOString()` and random suffix. -/
def successBody (nowMs nowIso rand fn ext : Str) (data : Json) : Json :=
  .obj [(cs "success", .bool true),
        (cs "analysis_id", .str (cs "wc_" ++ nowMs ++ cs "_" ++ rand)),
        (cs "data", data),
        (cs "metadata", .obj [
          (cs "file_name", .str fn),
          (cs "file_type", .str ext),
          (cs "processed_at", .str nowIso),
          (cs "model_used", .str (cs "gpt-4o"))])]

/-- Decimal digits of a status code, for the `OpenAI API error: n` message. -/
def natToChars (n : Nat) : Str := Nat.toDigits 10 n

/-- The whole request handler of `analyze-policy.js`, with the external model
API abstracted as `api` and the run's clock/randomness passed in. The
`OPTIONS` preflight answers 200 with an empty body (modelled as `null`). -/
def handler (env : Env) (api : ModelRequest → ApiResult)
    (nowMs nowIso rand : Str) (req : Request) : HandlerResult :=
  if req.method = cs "OPTIONS" then ⟨200, Json.null, []⟩
  else if req.method ≠ cs "POST" then ⟨405, errBody (cs "Method not allowed"), []⟩
  else if req.xApiKey ≠ some (serverKeyOf env) then
    ⟨401, errBody (cs "Invalid API key"), []⟩
  else
    match req.form with
    | .error e => ⟨500, errBody e, []⟩
    | .ok form =>
      match form.policy_file with
      | none => ⟨400, errBody (cs "No file uploaded"), []⟩
      | some pf =>
        let fileName := pf.originalFilename
        let fileExtension := extOf fileName
        match env.openaiApiKey with
        | none => ⟨500, errBody (cs "OPENAI_API_KEY not configured"), []⟩
        | some k =>
          if k = [] then ⟨500, errBody (cs "OPENAI_API_KEY not configured"), []⟩
          else
            let mreq := mkModelRequest fileName pf.content
            match api mreq with
            | .err st => ⟨500, errBody (cs "OpenAI API error: " ++ natToChars st), [mreq]⟩
            | .ok raw =>
              ⟨200, successBody nowMs nowIso rand fileName fileExtension (normalizeReply raw), [mreq]⟩

/-- Substring test: does `t` contain `pat` as a contiguous substring. -/
def containsSub (pat : Str) : Str → Bool
  | [] => pat.isEmpty
  | c :: rest => pat.isPrefixOf (c :: rest) || containsSub pat rest

/-- Claim C1's shape: a one-part text-only content whose text carries the
could-not-render note. -/
def isSingleTextWithNote : UserContent → Bool
  | .plain _ => false
  | .parts ps =>
    match ps with
    | [ContentPart.text t] => containsSub (cs "could not be rendered") t
    | _ => false

/-- Claim C2's shape: an `executive_summary` object holding both
`savings_potential` and `confidence_score`. -/
def hasWellFormedSummary (j : Json) : Bool :=
  match j.getObj? (cs "executive_summary") with
  | some es => ((es.getObj? (cs "savings_potential")).isSome &&
                (es.getObj? (cs "confidence_score")).isSome)
  | none => false

/-- Characterization of `takeToLastRBrace`: it returns the prefix ending at
the last right brace, when one exists. -/
theorem takeToLast_eq (l : Str) :
    takeToLastRBrace l = (lastIdxOf rbraceC l).map (fun b => l.take (b + 1)) := by
  induction l with
  | nil => rfl
  | cons a rest ih =>
    cases h : lastIdxOf rbraceC rest with
    | none =>
      have h2 : takeToLastRBrace rest = none := by rw [ih, h]; rfl
      by_cases ha : a = rbraceC
      · subst ha
        simp [takeToLastRBrace, lastIdxOf, h, h2]
      · simp [takeToLastRBrace, lastIdxOf, h, h2, ha]
    | some n =>
      have h2 : takeToLastRBrace rest = some (rest.take (n + 1)) := by rw [ih, h]; rfl
      simp [takeToLastRBrace, lastIdxOf, h, h2]

/-- The brace regex fires at the first left brace as soon as the greedy tail
finds a right brace after it. -/
theorem regex_fires (s : Str) (a : Nat) (t : Str)
    (h1 : firstIdxOf lbraceC s = some a)
    (h2 : takeToLastRBrace (s.drop (a + 1)) = some t) :
    regexMatchBrace s = some (lbraceC :: t) := by
  induction s generalizing a with
  | nil => simp [firstIdxOf] at h1
  | cons c rest ih =>
    by_cases hc : c = lbraceC
    · subst hc
      have ha : a = 0 := by
        simp [firstIdxOf] at h1
        omega
      subst ha
      simp only [List.drop_succ_cons, List.drop_zero] at h2
      simp [regexMatchBrace, h2]
    · have h1' : ∃ a', firstIdxOf lbraceC rest = some a' ∧ a = a' + 1 := by
        simp only [firstIdxOf, if_neg hc] at h1
        cases hf : firstIdxOf lbraceC rest with
        | none => rw [hf] at h1; simp at h1
        | some a' =>
          rw [hf] at h1
          simp at h1
          exact ⟨a', rfl, h1.symm⟩
      obtain ⟨a', hf, rfl⟩ := h1'
      have h2' : takeToLastRBrace (rest.drop (a' + 1)) = some t := by
        simpa using h2
      simp [regexMatchBrace, hc, ih a' hf h2']

/-- The first-index function really points at the character searched for. -/
theorem firstIdxOf_get (c : Char) (s : Str) (a : Nat)
    (h : firstIdxOf c s = some a) : s.get? a = some c := by
  induction s generalizing a with
  | nil => simp [firstIdxOf] at h
  | cons x rest ih =>
    by_cases hx : x = c
    · subst hx
      have : a = 0 := by simp [firstIdxOf] at h; omega
      subst this
      rfl
    · simp only [firstIdxOf, if_neg hx] at h
      cases hf : firstIdxOf c rest with
      | none => rw [hf] at h; simp at h
      | some a' =>
        rw [hf] at h
        simp at h
        subst h
        simpa using ih a' hf

/-- Any occurrence bounds the first index from below. -/
theorem get_firstIdx (c : Char) (s : Str) (i : Nat)
    (h : s.get? i = some c) : ∃ a, firstIdxOf c s = some a ∧ a ≤ i := by
  induction s generalizing i with
  | nil => simp at h
  | cons x rest ih =>
    cases i with
    | zero =>
      have hx : x = c := by simpa using h
      exact ⟨0, by simp [firstIdxOf, hx], Nat.le_refl 0⟩
    | succ m =>
      have h' : rest.get? m = some c := by simpa using h
      obtain ⟨a, ha, hle⟩ := ih m h'
      by_cases hx : x = c
      · exact ⟨0, by simp [firstIdxOf, hx], Nat.zero_le _⟩
      · exact ⟨a + 1, by simp [firstIdxOf, hx, ha], Nat.succ_le_succ hle⟩

/-- Any occurrence bounds the last index from above. -/
theorem get_lastIdx (c : Char) (s : Str) (j : Nat)
    (h : s.get? j = some c) : ∃ b, lastIdxOf c s = some b ∧ j ≤ b := by
  induction s generalizing j with
  | nil => simp at h
  | cons x rest ih =>
    cases j with
    | zero =>
      have hx : x = c := by simpa using h
      cases hr : lastIdxOf c rest with
      | none => exact ⟨0, by simp [lastIdxOf, hr, hx], Nat.le_refl 0⟩
      | some n => exact ⟨n + 1, by simp [lastIdxOf, hr], Nat.zero_le _⟩
    | succ m =>
      have h' : rest.get? m = some c := by simpa using h
      obtain ⟨b, hb, hle⟩ := ih m h'
      exact ⟨b + 1, by simp [lastIdxOf, hb], Nat.succ_le_succ hle⟩

/-- Dropping a prefix shifts the last index, provided the prefix ends before
the last occurrence. -/
theorem lastIdxOf_drop (c : Char) (n : Nat) :
    ∀ (s : Str) (b : Nat), lastIdxOf c s = some b → n ≤ b →
      lastIdxOf c (s.drop n) = some (b - n) := by
  induction n with
  | zero => intro s b h _; simpa using h
  | succ m ih =>
    intro s b h hnb
    cases s with
    | nil => simp [lastIdxOf] at h
    | cons x rest =>
      cases hr : lastIdxOf c rest with
      | some k =>
        have hb : b = k + 1 := by
          simp only [lastIdxOf, hr, Option.some.injEq] at h
          omega
        subst hb
        have := ih rest k hr (Nat.le_of_succ_le_succ hnb)
        simpa using this
      | none =>
        have hb : b = 0 := by
          simp only [lastIdxOf, hr] at h
          by_cases hx : x = c
          · rw [if_pos hx] at h
            injection h with h
            omega
          · rw [if_neg hx] at h; exact absurd h (by simp)
        omega

/-- Splitting a list at a known position. -/
theorem drop_of_get (s : Str) (a : Nat) (x : Char)
    (h : s.get? a = some x) : s.drop a = x :: s.drop (a + 1) := by
  induction s generalizing a with
  | nil => simp at h
  | cons c rest ih =>
    cases a with
    | zero =>
      have : c = x := by simpa using h
      subst this
      rfl
    | succ m =>
      have h' : rest.get? m = some x := by simpa using h
      simpa using ih m h'

/-- C6: for every cleaned completion text containing an opening brace
followed later by a closing brace, the normalizer's regex match extracts the
widest brace-delimited span — from the first opening brace to the last
closing brace of the text — and the parse stage runs `JSON.parse` on exactly
that span. -/
theorem C6_greedy_span (s : Str)
    (h : ∃ i j, i < j ∧ s.get? i = some lbraceC ∧ s.get? j = some rbraceC) :
    ∃ a b, firstIdxOf lbraceC s = some a ∧ lastIdxOf rbraceC s = some b ∧ a < b ∧
      regexMatchBrace s = some ((s.drop a).take (b + 1 - a)) ∧
      (regexMatchBrace s).bind JSONparse = JSONparse ((s.drop a).take (b + 1 - a)) := by
  obtain ⟨i, j, hij, hgi, hgj⟩ := h
  obtain ⟨a, ha, hai⟩ := get_firstIdx _ _ _ hgi
  obtain ⟨b, hb, hjb⟩ := get_lastIdx _ _ _ hgj
  have hab : a < b := lt_of_le_of_lt hai (lt_of_lt_of_le hij hjb)
  have hdrop : lastIdxOf rbraceC (s.drop (a + 1)) = some (b - (a + 1)) :=
    lastIdxOf_drop _ (a + 1) s b hb (by omega)
  have htake : takeToLastRBrace (s.drop (a + 1)) =
      some ((s.drop (a + 1)).take (b - (a + 1) + 1)) := by
    rw [takeToLast_eq, hdrop]
    rfl
  have hmatch := regex_fires s a _ ha htake
  have hsplit : s.drop a = lbraceC :: s.drop (a + 1) :=
    drop_of_get s a _ (firstIdxOf_get _ _ _ ha)
  have hspan : regexMatchBrace s = some ((s.drop a).take (b + 1 - a)) := by
    rw [hsplit]
    have he : b + 1 - a = (b - (a + 1) + 1) + 1 := by omega
    rw [he, List.take_succ_cons]
    exact hmatch
  exact ⟨a, b, ha, hb, hab, hspan, by rw [hspan]; rfl⟩

/-- Concrete instance of `C6_greedy_span` on the text a-lbrace-b-rbrace-c. -/
theorem C6_greedy_span_witness :
    (∃ i j, i < j ∧ (cs "a\x7bb\x7dc").get? i = some lbraceC ∧
      (cs "a\x7bb\x7dc").get? j = some rbraceC) ∧
    (∃ a b, firstIdxOf lbraceC (cs "a\x7bb\x7dc") = some a ∧
      lastIdxOf rbraceC (cs "a\x7bb\x7dc") = some b ∧ a < b ∧
      regexMatchBrace (cs "a\x7bb\x7dc") =
        some (((cs "a\x7bb\x7dc").drop a).take (b + 1 - a)) ∧
      (regexMatchBrace (cs "a\x7bb\x7dc")).bind JSONparse =
        JSONparse (((cs "a\x7bb\x7dc").drop a).take (b + 1 - a))) :=
  ⟨⟨1, 3, by decide, rfl, rfl⟩, C6_greedy_span _ ⟨1, 3, by decide, rfl, rfl⟩⟩

/-- C1 as stated is false: for the non-image, non-pdf extension `txt` the
handler builds a plain-string user content (the bare instruction text), not
a single-part content carrying a could-not-be-rendered note. -/
theorem C1_counterexample :
    extOf (cs "policy.txt") ∉ imageExtsList ∧
    buildUserContent (cs "policy.txt") [] = UserContent.plain (mkUserPrompt (cs "policy.txt")) ∧
    isSingleTextWithNote (buildUserContent (cs "policy.txt") []) = false := by
  refine ⟨by decide, ?_, ?_⟩ <;> rfl

/-- C1 amended: among non-image extensions, only `pdf` yields a single-part
text content carrying the note (that the file is a PDF and the model should
analyze based on typical Workers' Compensation policy structures); every
other non-image extension yields the plain string instruction text with no
note. -/
theorem C1_amended (fn : Str) (bytes : List Nat) (h : extOf fn ∉ imageExtsList) :
    buildUserContent fn bytes =
      if extOf fn = cs "pdf" then
        UserContent.parts [ContentPart.text (mkUserPrompt fn ++ pdfNote)]
      else
        UserContent.plain (mkUserPrompt fn) := by
  unfold buildUserContent
  by_cases hp : extOf fn = cs "pdf"
  · rw [if_pos (Or.inl hp), if_neg h, if_pos hp]
  · rw [if_neg ?_, if_neg hp]
    intro hor
    rcases hor with h1 | h2
    · exact hp h1
    · exact h h2

/-- Concrete instance of `C1_amended` at an uploaded `a.pdf`. -/
theorem C1_amended_witness :
    extOf (cs "a.pdf") ∉ imageExtsList ∧
    buildUserContent (cs "a.pdf") [] =
      (if extOf (cs "a.pdf") = cs "pdf" then
        UserContent.parts [ContentPart.text (mkUserPrompt (cs "a.pdf") ++ pdfNote)]
      else
        UserContent.plain (mkUserPrompt (cs "a.pdf"))) :=
  ⟨by decide, C1_amended _ _ (by decide)⟩

/-- C4 as stated is false: an extension-less filename does not yield an empty
extension; `split('.').pop()` returns the whole name, so `README` yields the
extension `readme`. -/
theorem C4_counterexample :
    extOf (cs "README") = cs "readme" ∧ cs "readme" ≠ ([] : Str) :=
  ⟨rfl, by decide⟩

/-- Splitting on dots of a dot-free list is the identity. -/
theorem splitOnDot_no_dot (l : Str) (h : '.' ∉ l) : splitOnDot l = [l] := by
  induction l with
  | nil => rfl
  | cons c rest ih =>
    have hc : c ≠ '.' := fun e => h (e ▸ List.mem_cons_self _ _)
    have hr : '.' ∉ rest := fun m => h (List.mem_cons_of_mem _ m)
    simp [splitOnDot, hc, ih hr]

/-- C4 amended: for a filename with no dot the derived extension is the whole
filename lowercased (not empty), and the request reaches the plain-text
branch if and only if that lowercased name is none of `pdf`, `jpg`, `jpeg`,
`png` (so a dotless name such as `PNG` takes the image branch instead). -/
theorem C4_amended (fn : Str) (h : '.' ∉ fn) :
    extOf fn = fn.map Char.toLower ∧
    ∀ bytes, (buildUserContent fn bytes = UserContent.plain (mkUserPrompt fn) ↔
      fn.map Char.toLower ≠ cs "pdf" ∧ fn.map Char.toLower ∉ imageExtsList) := by
  have he : extOf fn = fn.map Char.toLower := by
    unfold extOf
    rw [splitOnDot_no_dot fn h]
    rfl
  refine ⟨he, ?_⟩
  intro bytes
  by_cases hc : extOf fn = cs "pdf" ∨ extOf fn ∈ imageExtsList
  · constructor
    · intro hb
      exfalso
      unfold buildUserContent at hb
      rw [if_pos hc] at hb
      by_cases hin : extOf fn ∈ imageExtsList
      · rw [if_pos hin] at hb
        exact UserContent.noConfusion hb
      · rw [if_neg hin] at hb
        exact UserContent.noConfusion hb
    · rintro ⟨h1, h2⟩
      exfalso
      rw [he] at hc
      rcases hc with hc | hc
      · exact h1 hc
      · exact h2 hc
  · have hres : buildUserContent fn bytes = UserContent.plain (mkUserPrompt fn) := by
      unfold buildUserContent
      rw [if_neg hc]
    rw [he, not_or] at hc
    exact ⟨fun _ => hc, fun _ => hres⟩

/-- Concrete instance of `C4_amended` at the dot-free filename `README`. -/
theorem C4_amended_witness :
    ('.' ∉ cs "README") ∧
    (extOf (cs "README") = (cs "README").map Char.toLower ∧
      ∀ bytes, (buildUserContent (cs "README") bytes =
          UserContent.plain (mkUserPrompt (cs "README")) ↔
        (cs "README").map Char.toLower ≠ cs "pdf" ∧
        (cs "README").map Char.toLower ∉ imageExtsList)) :=
  ⟨by decide, C4_amended _ (by decide)⟩

/-- C5: every image extension yields the two-part content — instruction text
plus an inline image whose data URI MIME prefix matches the extension (`png`
to `image/png`, `jpg` and `jpeg` to `image/jpeg`). -/
theorem C5_image_payload (fn : Str) (bytes : List Nat) (h : extOf fn ∈ imageExtsList) :
    buildUserContent fn bytes =
      UserContent.parts [ContentPart.text (mkUserPrompt fn),
        ContentPart.imageUrl
          (cs "data:" ++ imageTypeOf (extOf fn) ++ cs ";base64," ++ base64Encode bytes)
          (cs "high")] ∧
    (extOf fn = cs "png" → imageTypeOf (extOf fn) = cs "image/png") ∧
    ((extOf fn = cs "jpg" ∨ extOf fn = cs "jpeg") →
      imageTypeOf (extOf fn) = cs "image/jpeg") := by
  refine ⟨?_, ?_, ?_⟩
  · unfold buildUserContent
    rw [if_pos (Or.inr h), if_pos h]
  · intro hp
    rw [hp]
    rfl
  · intro hp
    rcases hp with hp | hp <;> rw [hp] <;> rfl

/-- Concrete instance of `C5_image_payload` at an uploaded `a.png` with one
byte of content. -/
theorem C5_image_payload_witness :
    extOf (cs "a.png") ∈ imageExtsList ∧
    (buildUserContent (cs "a.png") [77] =
      UserContent.parts [ContentPart.text (mkUserPrompt (cs "a.png")),
        ContentPart.imageUrl
          (cs "data:" ++ imageTypeOf (extOf (cs "a.png")) ++ cs ";base64," ++
            base64Encode [77])
          (cs "high")] ∧
    (extOf (cs "a.png") = cs "png" → imageTypeOf (extOf (cs "a.png")) = cs "image/png") ∧
    ((extOf (cs "a.png") = cs "jpg" ∨ extOf (cs "a.png") = cs "jpeg") →
      imageTypeOf (extOf (cs "a.png")) = cs "image/jpeg")) :=
  ⟨by decide, C5_image_payload _ _ (by decide)⟩

/-- C2 as stated is false: when the model reply parses cleanly the handler
returns the parsed object verbatim, so a reply consisting of an empty JSON
object reaches the caller as `data` with no `executive_summary` at all. -/
theorem C2_counterexample :
    (handler ⟨none, some (cs "sk"), none⟩ (fun _ => ApiResult.ok (cs "\x7b\x7d"))
      (cs "0") (cs "t") (cs "r")
      ⟨cs "POST", some (cs "suRew@y_Insur@nce_2024_S3cur3_K3y"),
        Except.ok ⟨some ⟨cs "p.txt", []⟩⟩⟩).status = 200 ∧
    (handler ⟨none, some (cs "sk"), none⟩ (fun _ => ApiResult.ok (cs "\x7b\x7d"))
      (cs "0") (cs "t") (cs "r")
      ⟨cs "POST", some (cs "suRew@y_Insur@nce_2024_S3cur3_K3y"),
        Except.ok ⟨some ⟨cs "p.txt", []⟩⟩⟩).body.getObj? (cs "data") =
      some (Json.obj []) ∧
    hasWellFormedSummary (Json.obj []) = false := by
  refine ⟨rfl, ?_, rfl⟩
  rfl

/-- C2 amended: the fallback path always produces a well-formed
`executive_summary` with `savings_potential` and `confidence_score`; on the
clean-parse path the result is the parsed object verbatim, which need not
contain those fields. -/
theorem C2_amended (raw : Str) :
    (extractParse raw = none ∧ normalizeReply raw = fallbackResult raw ∧
      hasWellFormedSummary (normalizeReply raw) = true) ∨
    (∃ j, extractParse raw = some j ∧ normalizeReply raw = j) := by
  cases h : extractParse raw with
  | none =>
    left
    have hn : normalizeReply raw = fallbackResult raw := by
      unfold normalizeReply
      rw [h]
    exact ⟨rfl, hn, by rw [hn]; rfl⟩
  | some j =>
    right
    refine ⟨j, rfl, ?_⟩
    unfold normalizeReply
    rw [h]

/-- C3: whenever the extract-and-parse stage fails (no brace span in the
cleaned text, or strict parsing of the span throws — the cases the spec
describes as input not parseable as JSON), the normalizer still returns a
result, namely the fallback, carrying `executive_summary.confidence_score`,
a non-empty `savings_opportunities.immediate_actions` list, and
`full_analysis_text` equal to the original input verbatim. The normalizer is
a total function, so it can never raise. -/
theorem C3_fallback_shape (raw : Str) (h : extractParse raw = none) :
    normalizeReply raw = fallbackResult raw ∧
    getObj2 (normalizeReply raw) (cs "executive_summary") (cs "confidence_score") =
      some (Json.num 85 0) ∧
    (∃ acts, getObj2 (normalizeReply raw) (cs "savings_opportunities")
        (cs "immediate_actions") = some (Json.arr acts) ∧ acts ≠ []) ∧
    (normalizeReply raw).getObj? (cs "full_analysis_text") = some (Json.str raw) := by
  have hn : normalizeReply raw = fallbackResult raw := by
    unfold normalizeReply
    rw [h]
  rw [hn]
  exact ⟨rfl, rfl, ⟨_, rfl, by simp⟩, rfl⟩

/-- Concrete instance of `C3_fallback_shape` on a plain-prose model reply. -/
theorem C3_fallback_shape_witness :
    extractParse (cs "Sorry, I cannot process this.") = none ∧
    (normalizeReply (cs "Sorry, I cannot process this.") =
        fallbackResult (cs "Sorry, I cannot process this.") ∧
      getObj2 (normalizeReply (cs "Sorry, I cannot process this."))
        (cs "executive_summary") (cs "confidence_score") = some (Json.num 85 0) ∧
      (∃ acts, getObj2 (normalizeReply (cs "Sorry, I cannot process this."))
          (cs "savings_opportunities") (cs "immediate_actions") =
          some (Json.arr acts) ∧ acts ≠ []) ∧
      (normalizeReply (cs "Sorry, I cannot process this.")).getObj?
        (cs "full_analysis_text") =
        some (Json.str (cs "Sorry, I cannot process this."))) :=
  ⟨rfl, C3_fallback_shape _ rfl⟩

/-- C7: on the fenced reply carrying a JSON object with confidence score 90,
the normalizer strips the fences, parses the span successfully, and the
result's `executive_summary.confidence_score` is 90. -/
theorem C7_fenced_scenario :
    extractParse (cs "```json\n\x7b\"executive_summary\":\x7b\"confidence_score\":90\x7d\x7d\n```") =
      some (Json.obj [(cs "executive_summary",
        Json.obj [(cs "confidence_score", Json.num 90 0)])]) ∧
    getObj2 (normalizeReply
        (cs "```json\n\x7b\"executive_summary\":\x7b\"confidence_score\":90\x7d\x7d\n```"))
      (cs "executive_summary") (cs "confidence_score") = some (Json.num 90 0) := by
  exact ⟨rfl, rfl⟩

/-- C10: the fallback result carries exactly the default values of the
source's catch block: confidence score 85, savings potential and estimated
savings range both the 15-25% string, current premium the string
`Analysis completed`, and the fixed three-action review list. -/
theorem C10_fallback_defaults (raw : Str) (h : extractParse raw = none) :
    getObj2 (normalizeReply raw) (cs "executive_summary") (cs "current_premium") =
      some (Json.str (cs "Analysis completed")) ∧
    getObj2 (normalizeReply raw) (cs "executive_summary") (cs "savings_potential") =
      some (Json.str (cs "15-25%")) ∧
    getObj2 (normalizeReply raw) (cs "executive_summary") (cs "confidence_score") =
      some (Json.num 85 0) ∧
    getObj2 (normalizeReply raw) (cs "savings_opportunities")
      (cs "estimated_savings_range") = some (Json.str (cs "15-25%")) ∧
    getObj2 (normalizeReply raw) (cs "savings_opportunities") (cs "immediate_actions") =
      some (Json.arr [
        Json.str (cs "Review classification codes for accuracy"),
        Json.str (cs "Verify payroll calculations"),
        Json.str (cs "Check experience modification factor")]) := by
  have hn : normalizeReply raw = fallbackResult raw := by
    unfold normalizeReply
    rw [h]
  rw [hn]
  exact ⟨rfl, rfl, rfl, rfl, rfl⟩

/-- Concrete instance of `C10_fallback_defaults` on a reply with no JSON. -/
theorem C10_fallback_defaults_witness :
    extractParse (cs "no json here") = none ∧
    (getObj2 (normalizeReply (cs "no json here")) (cs "executive_summary")
        (cs "current_premium") = some (Json.str (cs "Analysis completed")) ∧
      getObj2 (normalizeReply (cs "no json here")) (cs "executive_summary")
        (cs "savings_potential") = some (Json.str (cs "15-25%")) ∧
      getObj2 (normalizeReply (cs "no json here")) (cs "executive_summary")
        (cs "confidence_score") = some (Json.num 85 0) ∧
      getObj2 (normalizeReply (cs "no json here")) (cs "savings_opportunities")
        (cs "estimated_savings_range") = some (Json.str (cs "15-25%")) ∧
      getObj2 (normalizeReply (cs "no json here")) (cs "savings_opportunities")
        (cs "immediate_actions") = some (Json.arr [
          Json.str (cs "Review classification codes for accuracy"),
          Json.str (cs "Verify payroll calculations"),
          Json.str (cs "Check experience modification factor")])) :=
  ⟨rfl, C10_fallback_defaults _ rfl⟩

/-- C8: a POST request with the valid credential whose parsed form has no
`policy_file` is answered 400 with the success-false envelope and the
outbound model API is never called (the run's call list is empty). -/
theorem C8_missing_file (env : Env) (api : ModelRequest → ApiResult)
    (nowMs nowIso rand : Str) (req : Request) (f : ParsedForm)
    (h1 : req.method = cs "POST") (h2 : req.xApiKey = some (serverKeyOf env))
    (h3 : req.form = Except.ok f) (h4 : f.policy_file = none) :
    handler env api nowMs nowIso rand req =
      ⟨400, errBody (cs "No file uploaded"), []⟩ := by
  obtain ⟨pf⟩ := f
  have h4' : pf = none := h4
  subst h4'
  unfold handler
  rw [h1, h2, h3]
  rw [if_neg (by decide : ¬ (cs "POST" = cs "OPTIONS"))]
  rw [if_neg (by simp : ¬ (cs "POST" ≠ cs "POST"))]
  rw [if_neg (by simp : ¬ (some (serverKeyOf env) ≠ some (serverKeyOf env)))]

/-- Concrete instance of `C8_missing_file`: valid key, empty form. -/
theorem C8_missing_file_witness :
    handler ⟨none, some (cs "sk"), none⟩ (fun _ => ApiResult.err 500)
      (cs "0") (cs "t") (cs "r")
      ⟨cs "POST", some (serverKeyOf ⟨none, some (cs "sk"), none⟩), Except.ok ⟨none⟩⟩ =
      ⟨400, errBody (cs "No file uploaded"), []⟩ :=
  C8_missing_file _ _ _ _ _ _ ⟨none⟩ rfl rfl rfl rfl

/-- C9: a POST request whose credential does not match the configured secret
is answered 401 with the invalid-key envelope, with no outbound call, and
the outcome is independent of the multipart body and uploaded file (the
response is unchanged under any replacement of the form-parse outcome). -/
theorem C9_bad_credential (env : Env) (api : ModelRequest → ApiResult)
    (nowMs nowIso rand : Str) (req : Request)
    (h1 : req.method = cs "POST") (h2 : req.xApiKey ≠ some (serverKeyOf env)) :
    handler env api nowMs nowIso rand req =
      ⟨401, errBody (cs "Invalid API key"), []⟩ ∧
    ∀ form2, handler env api nowMs nowIso rand { req with form := form2 } =
      handler env api nowMs nowIso rand req := by
  have key : ∀ fr : Except Str ParsedForm,
      handler env api nowMs nowIso rand ⟨req.method, req.xApiKey, fr⟩ =
        ⟨401, errBody (cs "Invalid API key"), []⟩ := by
    intro fr
    unfold handler
    simp only
    rw [h1]
    rw [if_neg (by decide : ¬ (cs "POST" = cs "OPTIONS"))]
    rw [if_neg (by simp : ¬ (cs "POST" ≠ cs "POST"))]
    rw [if_pos h2]
  refine ⟨key req.form, ?_⟩
  intro form2
  rw [key form2]
  exact (key req.form).symm

/-- Concrete instance of `C9_bad_credential`: wrong key, failing form parse. -/
theorem C9_bad_credential_witness :
    handler ⟨none, some (cs "sk"), none⟩ (fun _ => ApiResult.err 500)
      (cs "0") (cs "t") (cs "r")
      ⟨cs "POST", some (cs "bad"), Except.error (cs "boom")⟩ =
      ⟨401, errBody (cs "Invalid API key"), []⟩ ∧
    ∀ form2, handler ⟨none, some (cs "sk"), none⟩ (fun _ => ApiResult.err 500)
      (cs "0") (cs "t") (cs "r")
      { (⟨cs "POST", some (cs "bad"), Except.error (cs "boom")⟩ : Request) with
        form := form2 } =
      handler ⟨none, some (cs "sk"), none⟩ (fun _ => ApiResult.err 500)
        (cs "0") (cs "t") (cs "r")
        ⟨cs "POST", some (cs "bad"), Except.error (cs "boom")⟩ :=
  C9_bad_credential _ _ _ _ _ _ rfl (by decide)
